import Mathlib

/-!
Shallow embedding of the treatment-method library of the Encorcage
repository (`src/bark_calculator/treatment_method/methods.py`,
`src/bark_calculator/treatment_method/builder.py`, and the later revision
`src/bark_calculator_1/treatment_method/methods.py`).

Images are rasters of rational-valued RGB pixels.  Pure numpy / skimage /
sklearn primitives that the glue code relies on in an essential way
(`rgb2grey`, `np.mean`, `np.put`, `np.where`, `minmax_scale`, `np.argsort`,
`np.argmax`, slicing) are translated exactly; heavyweight numeric library
calls whose output the verified properties do not constrain (PCA fit,
k-means fit, sobel, resize, rescale, equalize_adapthist, entropy) are taken
as explicit function parameters ("oracles") of the embedded operations, so
every theorem quantifies over their possible outputs.  The skimage
watershed is modelled by its labelling contract (see `wsStep` below).
-/

/-- A pixel: an RGB triple of rational intensities. -/
abbrev Pixel : Type := ℚ × ℚ × ℚ

/-- A raster in row-major nested-list form (numpy `ndarray` of shape (h, w, 3)). -/
abbrev Img : Type := List (List Pixel)

/-- skimage `rgb2grey` on one pixel: Y = 0.2125 R + 0.7154 G + 0.0721 B. -/
def greyPix (p : Pixel) : ℚ :=
  (2125 / 10000) * p.1 + (7154 / 10000) * p.2.1 + (721 / 10000) * p.2.2

/-- skimage `rgb2grey` on a whole raster. -/
def greyImg (img : Img) : List (List ℚ) :=
  img.map (fun row => row.map greyPix)

/-- numpy `np.mean` of a 1-D array of rationals (0 on the empty array,
    whose numpy result is NaN; no verified property touches that case). -/
def listMean (l : List ℚ) : ℚ := l.sum / l.length

/-- `BlackMask.make_mask` (methods.py lines 188-200): grey-convert, then a
    pixel of the all-ones boolean mask is set to `False` when its grey value
    is below 0.05 (`black_points`) or when its row's mean grey value is below
    0.1 (`black_lines`).  Both updates only ever write `False`, so the final
    entry is the conjunction of the two negated conditions. -/
def make_mask (img : Img) : List (List Bool) :=
  (greyImg img).map (fun row =>
    let lineBlack : Bool := decide (listMean row < 1 / 10)
    row.map (fun g => !(decide (g < 1 / 20)) && !lineBlack))

/-- numpy masked array: `mask = true` means the element is masked out
    (hidden); `mask = false` means the element is visible. -/
structure MaskedArr where
  data : List (List ℚ)
  mask : List (List Bool)

/-- Whether entry (i, j) of a masked array is hidden (masked out). -/
def MaskedArr.hiddenAt (m : MaskedArr) (i j : ℕ) : Bool :=
  (m.mask.getD i []).getD j false

/-- `BlackMask.treat_image` (methods.py lines 184-186): returns the pair
    `[image, np.ma.array(rgb2grey(image), mask=self.make_mask(image))]`. -/
def blackMask_treat_image (img : Img) : Img × MaskedArr :=
  (img, { data := greyImg img, mask := make_mask img })

/-- `BlackFilter.remove_black_regions` (methods.py lines 164-179): same
    two conditions as `make_mask` but with pointwise threshold 0.15; the
    copy of the image gets value 100 on every channel of every invalid
    pixel. -/
def remove_black_regions (img : Img) : Img :=
  (greyImg img).zip img |>.map (fun rows =>
    let lineBlack : Bool := decide (listMean rows.1 < 1 / 10)
    rows.1.zip rows.2 |>.map (fun gp =>
      if decide (gp.1 < 15 / 100) || lineBlack then ((100 : ℚ), (100 : ℚ), (100 : ℚ))
      else gp.2))

/-- `BlackFilter.treat_image` (methods.py lines 161-162). -/
def blackFilter_treat_image (img : Img) : List Img :=
  [img, remove_black_regions img]

/-- `TreatmentMethod.treat_images` of the first revision
    (bark_calculator, lines 34-35): a list comprehension over the images. -/
def treatImages {α β : Type} (treat : α → β) (images : List α) : List β :=
  images.map treat

/-- `TreatmentMethod.treat_images` of the later revision
    (bark_calculator_1, lines 33-34): a list comprehension over
    `zip(images, image_types)`. -/
def treatImages2 {α β γ : Type} (treat : α → γ → β)
    (images : List α) (image_types : List γ) : List β :=
  (images.zip image_types).map (fun p => treat p.1 p.2)

/-- `TreatmentMethod.treat_image`, the abstract base method: it raises
    `NotImplementedError("Should be implemented by children classes.")`,
    modelled as an `Except.error` carrying the message. -/
def treatmentMethod_treat_image (β : Type) (image : Img) (image_type : String) :
    Except String β :=
  Except.error "Should be implemented by children classes."

/-- `BlackTrimmer.treat_image`: the class (bark_calculator_1, lines
    194-204) overrides only `make_trimmer`, so `treat_image` is inherited
    from the abstract base and raises. -/
def blackTrimmer_treat_image (β : Type) (image : Img) (image_type : String) :
    Except String β :=
  treatmentMethod_treat_image β image image_type

/-- The strategy classes constructible by the builder. -/
inductive Strategy where
  | edgeDetection
  | identity
  | blackFilter
  | blackMask
  | colorFilter
  | componentDetection
  | thresholding
deriving DecidableEq

/-- `build_from_treatment_method_arg` (builder.py lines 4-24): a chain of
    string comparisons; falling through every branch returns Python `None`,
    modelled as `Option.none`. -/
def build_from_treatment_method_arg (treatment_method : String) : Option Strategy :=
  if treatment_method = "edge_detection" then some Strategy.edgeDetection
  else if treatment_method = "id" then some Strategy.identity
  else if treatment_method = "black_filter" then some Strategy.blackFilter
  else if treatment_method = "black_mask" then some Strategy.blackMask
  else if treatment_method = "color_filter" then some Strategy.colorFilter
  else if treatment_method = "component_detection" then some Strategy.componentDetection
  else if treatment_method = "threshold" then some Strategy.thresholding
  else none

/-- A single-channel raster of fixed shape, as a function of its indices. -/
abbrev Gr (h w : ℕ) : Type := Fin h → Fin w → ℚ

/-- A 3-channel raster of fixed shape. -/
abbrev RGBr (h w : ℕ) : Type := Fin h → Fin w → Pixel

/-- A boolean raster of fixed shape. -/
abbrev MaskB (h w : ℕ) : Type := Fin h → Fin w → Bool

/-- skimage `rgb2grey` on a fixed-shape raster. -/
def rgb2greyFn {h w : ℕ} (img : RGBr h w) : Gr h w :=
  fun i j => greyPix (img i j)

/-- skimage `grey2rgb`: broadcast one channel to three. -/
def grey2rgbFn {h w : ℕ} (g : Gr h w) : RGBr h w :=
  fun i j => (g i j, g i j, g i j)

/-- numpy `np.mean(black_image, axis=1)` at row `i`: the mean over the
    row's `w` columns. -/
def rowMeanFn {h w : ℕ} (g : Gr h w) (i : Fin h) : ℚ :=
  (List.ofFn (fun j => g i j)).sum / w

/-- `BlackMask.make_mask` on a fixed-shape raster (methods.py lines
    188-200), identical in content to `make_mask` above: valid iff the grey
    value is not below 0.05 and the row's mean grey value is not below 0.1. -/
def make_mask_fn {h w : ℕ} (img : RGBr h w) : MaskB h w :=
  fun i j =>
    !(decide (rgb2greyFn img i j < 1 / 20)) &&
      !(decide (rowMeanFn (rgb2greyFn img) i < 1 / 10))

/-- sklearn `minmax_scale` on a single-column array: map each entry `x` to
    `(x - min) / (max - min)`; sklearn replaces a zero range by 1, sending a
    constant column to 0. -/
def minmax_scale (l : List ℚ) : List ℚ :=
  let mn := l.min?.getD 0
  let mx := l.max?.getD 0
  let d := if mx = mn then 1 else mx - mn
  l.map (fun x => (x - mn) / d)

/-- Loop body of numpy `np.put(a, ind, v)` with `v` nonempty: for the
    `k`-th target index `q` (counting from the accumulated offset), set
    `a.flat[q] := v[k % len(v)]` (numpy cycles `v` when it is shorter than
    `ind`); writes whose index is out of range raise in numpy and are
    ignored here (no verified property depends on an out-of-range write). -/
def npPutAux {α : Type} [Inhabited α] (a : List α) (ind : List ℕ) (v : List α)
    (k : ℕ) : List α :=
  match ind with
  | [] => a
  | q :: rest => npPutAux (a.set q (v.getD (k % v.length) default)) rest v (k + 1)

/-- numpy `np.put(a, ind, v)`. -/
def npPut {α : Type} [Inhabited α] (a : List α) (ind : List ℕ) (v : List α) : List α :=
  if v.isEmpty then a else npPutAux a ind v 0

/-- numpy `np.where` on a flattened boolean array: the list of indices
    holding `true`, in increasing order. -/
def whereList : List Bool → List ℕ
  | [] => []
  | true :: rest => 0 :: (whereList rest).map (· + 1)
  | false :: rest => (whereList rest).map (· + 1)

/-- The row-major flattening of a boolean mask (`black_mask.flatten()`). -/
def maskFlatOf {h w : ℕ} (m : MaskB h w) : List Bool :=
  (List.finRange h).flatMap (fun i => (List.finRange w).map (fun j => m i j))

/-- Row-major boolean selection `image[black_mask]`: the pixels at the
    valid positions, in row-major order. -/
def selPixels {h w : ℕ} (img : RGBr h w) (m : MaskB h w) : List Pixel :=
  (List.finRange h).flatMap (fun i =>
    (List.finRange w).filterMap (fun j => if m i j then some (img i j) else none))

/-- `black_white_pca = 1 - minmax_scale(pca_treated)` (methods.py line 92),
    with the PCA projection of the valid pixels supplied by the oracle
    `pcaO` (sklearn `PCA(n_components=1).fit_transform`). -/
def bwpcaOf {h w : ℕ} (img : RGBr h w) (pcaO : List Pixel → List ℚ) : List ℚ :=
  (minmax_scale (pcaO (selPixels img (make_mask_fn img)))).map (fun x => 1 - x)

/-- The `final_image` raster of the shared PCA preprocessing (methods.py
    lines 90-93), flattened: `np.zeros((image.shape[0], image.shape[0]))` —
    note the *square* h-by-h zero raster — followed by
    `np.put(final_image, np.where(black_mask.flatten()), black_white_pca)`. -/
def finalFlatOf {h w : ℕ} (img : RGBr h w) (pcaO : List Pixel → List ℚ) : List ℚ :=
  npPut (List.replicate (h * h) (0 : ℚ))
    (whereList (maskFlatOf (make_mask_fn img)))
    (bwpcaOf img pcaO)

/-- Read the square `final_image` back as a raster: `final_image` has shape
    `(image.shape[0], image.shape[0])`, which matches the image exactly when
    the image is square, the only case in which the pipeline proceeds
    without error (see the C3 theorems). -/
def finalImageSq {n : ℕ} (img : RGBr n n) (pcaO : List Pixel → List ℚ) : Gr n n :=
  fun i j => (finalFlatOf img pcaO).getD ((i : ℕ) * n + (j : ℕ)) 0

/-- Row-major rank of flat position `q` among the `true` entries of a
    flattened mask: how many valid positions precede it. -/
def rankOf (m : List Bool) (q : ℕ) : ℕ := (m.take q).countP id

/-- The 4-neighbourhood of a grid cell (skimage watershed uses
    connectivity 1, i.e. 4-connectivity in 2-D). -/
def neighCells {h w : ℕ} (i : Fin h) (j : Fin w) : List (Fin h × Fin w) :=
  (if h1 : 0 < (i : ℕ) then
      [(⟨(i : ℕ) - 1, lt_of_le_of_lt (Nat.sub_le _ _) i.isLt⟩, j)] else []) ++
  (if h2 : (i : ℕ) + 1 < h then [(⟨(i : ℕ) + 1, h2⟩, j)] else []) ++
  (if h3 : 0 < (j : ℕ) then
      [(i, ⟨(j : ℕ) - 1, lt_of_le_of_lt (Nat.sub_le _ _) j.isLt⟩)] else []) ++
  (if h4 : (j : ℕ) + 1 < w then [(i, ⟨(j : ℕ) + 1, h4⟩)] else [])

/-- One flooding step of the watershed model: an already-labelled cell
    keeps its label; an unlabelled cell inside the mask takes the smallest
    nonzero label among its 4-neighbours (if any); everything else stays 0. -/
def wsStep {h w : ℕ} (mask : MaskB h w) (s : Gr h w) : Gr h w :=
  fun i j =>
    if s i j ≠ 0 then s i j
    else if mask i j then
      (((neighCells i j).map (fun q => s q.1 q.2)).filter (fun x => decide (x ≠ 0))).min?.getD 0
    else 0

/-- Model of `skimage.segmentation.watershed(image, markers, mask=mask)`:
    the output starts as a copy of `markers` and marker labels flood to
    connected unlabelled cells inside the mask; cells outside the mask, and
    masked cells whose connected region holds no marker, keep their initial
    value.  The elevation `image` influences only the flooding order, on
    which none of the verified properties depend, so the model floods by
    iterated neighbour propagation (`h * w` steps saturate the grid). -/
def wsModel {h w : ℕ} (image markers : Gr h w) (mask : MaskB h w) : Gr h w :=
  (wsStep mask)^[h * w] markers

/-- The marker raster of `ComponentDetection.treat_image` (methods.py lines
    97-100): `markers = np.zeros_like(final_image)`, then sequentially
    `markers[final_image > 0.6] = 2`, `markers[final_image < 0.45] = 1`,
    `markers[~black_mask] = 0` (each later write overwrites earlier ones). -/
def cdMarkersFrom {n : ℕ} (final : Gr n n) (mask : MaskB n n) : Gr n n :=
  fun i j =>
    let m0 : ℚ := 0
    let m1 : ℚ := if final i j > 3 / 5 then 2 else m0
    let m2 : ℚ := if final i j < 9 / 20 then 1 else m1
    if !(mask i j) then 0 else m2

/-- The markers actually used by `ComponentDetection.treat_image` on the
    (rescaled) image `img`, with PCA oracle `pcaO`. -/
def cdMarkers {n : ℕ} (img : RGBr n n) (pcaO : List Pixel → List ℚ) : Gr n n :=
  cdMarkersFrom (finalImageSq img pcaO) (make_mask_fn img)

/-- The watershed label raster of `ComponentDetection.treat_image`
    (methods.py line 102, before `/2` and `grey2rgb`); `sobelO` embodies
    `skimage.filters.sobel`. -/
def cdWS {n : ℕ} (img : RGBr n n) (pcaO : List Pixel → List ℚ)
    (sobelO : Gr n n → Gr n n) : Gr n n :=
  wsModel (sobelO (finalImageSq img pcaO)) (cdMarkers img pcaO) (make_mask_fn img)

/-- `ws_image = grey2rgb(watershed(...)/2)` of `ComponentDetection`. -/
def cdWsImage {n : ℕ} (img : RGBr n n) (pcaO : List Pixel → List ℚ)
    (sobelO : Gr n n → Gr n n) : RGBr n n :=
  grey2rgbFn (fun i j => cdWS img pcaO sobelO i j / 2)

/-- Pixelwise sum of two RGB pixels. -/
def pixAdd (a b : Pixel) : Pixel := (a.1 + b.1, a.2.1 + b.2.1, a.2.2 + b.2.2)

/-- Pixelwise `(a + b) / 2` of two RGB rasters. -/
def blendHalf {h w : ℕ} (a b : RGBr h w) : RGBr h w :=
  fun i j =>
    let s := pixAdd (a i j) (b i j)
    (s.1 / 2, s.2.1 / 2, s.2.2 / 2)

/-- `ComponentDetection.treat_image` (methods.py lines 83-104) applied to
    the already 1/8-rescaled image `img` (`skimage.transform.rescale` is an
    external resampling routine; the embedding starts from its output,
    which the code immediately rebinds to `image`). -/
def componentDetection_treat_image {n : ℕ} (img : RGBr n n)
    (pcaO : List Pixel → List ℚ) (sobelO : Gr n n → Gr n n) : List (RGBr n n) :=
  [img, blendHalf img (cdWsImage img pcaO sobelO), cdWsImage img pcaO sobelO]

/-- The caller-visible markers after
    `ComponentDetection.treat_image_with_markers` ran `markers[~black_mask]
    = 0` (methods.py line 118): the in-place update writes 0 at every
    mask-invalid position of the caller's array and leaves the rest alone. -/
def cdwmMarkers {n : ℕ} (img : RGBr n n) (markers : Gr n n) : Gr n n :=
  fun i j => if !(make_mask_fn img i j) then 0 else markers i j

/-- The watershed raster of `treat_image_with_markers` (line 122): it runs
    on the already-updated markers. -/
def cdwmWS {n : ℕ} (img : RGBr n n) (pcaO : List Pixel → List ℚ)
    (sobelO : Gr n n → Gr n n) (markers : Gr n n) : Gr n n :=
  wsModel (sobelO (finalImageSq img pcaO)) (cdwmMarkers img markers) (make_mask_fn img)

/-- `ws_image` of `treat_image_with_markers`. -/
def cdwmWsImage {n : ℕ} (img : RGBr n n) (pcaO : List Pixel → List ℚ)
    (sobelO : Gr n n → Gr n n) (markers : Gr n n) : RGBr n n :=
  grey2rgbFn (fun i j => cdwmWS img pcaO sobelO markers i j / 2)

/-- `ComponentDetection.treat_image_with_markers` (methods.py lines
    106-124) on the rescaled image: first component the returned list,
    second component the caller's markers array as left behind by the
    in-place `markers[~black_mask] = 0` (the code takes no copy, so the
    caller observes the update). -/
def componentDetection_treat_image_with_markers {n : ℕ} (img : RGBr n n)
    (pcaO : List Pixel → List ℚ) (sobelO : Gr n n → Gr n n) (markers : Gr n n) :
    List (RGBr n n) × Gr n n :=
  ([img, blendHalf img (cdwmWsImage img pcaO sobelO markers),
    cdwmWsImage img pcaO sobelO markers],
   cdwmMarkers img markers)

/-- `Thresholding.treat_image` (methods.py lines 129-150) on the rescaled
    image; `taO` embodies `threshold_adaptive(final_image, block_size=35)`,
    which returns a boolean raster (then `.astype(float)`, `+= 1`, and the
    mask zeroing produce the markers). -/
def thresholding_treat_image {n : ℕ} (img : RGBr n n)
    (pcaO : List Pixel → List ℚ) (sobelO : Gr n n → Gr n n)
    (taO : Gr n n → MaskB n n) : List (Gr n n) :=
  let final := finalImageSq img pcaO
  let mask := make_mask_fn img
  let markers : Gr n n :=
    fun i j => if !(mask i j) then 0 else (if taO final i j then (1 : ℚ) else 0) + 1
  [final, wsModel (sobelO final) markers mask]

/-- `EdgeDetection.treat_image` (methods.py lines 50-63) on the rescaled
    image; `filtered_image` (lines 65-75) is textually the same
    PCA-preprocessing as in `ComponentDetection`, hence `finalImageSq`.
    The five edge operators are library calls. -/
def edgeDetection_treat_image {n : ℕ} (img : RGBr n n)
    (pcaO : List Pixel → List ℚ)
    (sobelO laplaceO prewittO scharrO robertsO : Gr n n → Gr n n) : List (Gr n n) :=
  let fi := finalImageSq img pcaO
  [rgb2greyFn img, sobelO fi, laplaceO fi, prewittO fi, scharrO fi, robertsO fi]

/-- `image.reshape((image.shape[0] * image.shape[0], 3))` (methods.py line
    208): the pixels in row-major order. -/
def flattenPixels {n : ℕ} (img : RGBr n n) : List Pixel :=
  (List.finRange n).flatMap (fun i => (List.finRange n).map (fun j => img i j))

/-- Squared Euclidean norm of a centroid.  `np.linalg.norm` is the true
    Euclidean norm; ordering by the square is the same ordering, and only
    the ordering (via `np.argsort`) is consumed. -/
def normSq (p : Pixel) : ℚ := p.1 ^ 2 + p.2.1 ^ 2 + p.2.2 ^ 2

/-- numpy `np.argsort` of a 1-D array: the list of indices ordered by
    ascending value (ties by index, a stable order). -/
def argsortAsc (l : List ℚ) : List ℕ :=
  (List.range l.length).mergeSort (fun a b =>
    decide (l.getD a 0 < l.getD b 0) || (decide (l.getD a 0 = l.getD b 0) && decide (a ≤ b)))

/-- `sorted_centers_args = np.argsort(np.linalg.norm(centers, axis=-1))[::-1]`
    (methods.py lines 214-215). -/
def sorted_centers_args (centers : List Pixel) : List ℕ :=
  (argsortAsc (centers.map normSq)).reverse

/-- The remap loop of `ColorFilter.treat_image` (methods.py lines 217-219):
    `np.put(k_means_4_image, kmeans.labels_ == prev_number, sorted_number)`
    for each `prev_number` in 0..3.  The second argument of `np.put` is the
    *boolean* array `labels == prev_number`, which numpy casts to the
    integer index array of 0s and 1s; the scalar third argument becomes the
    one-element value list. -/
def cfRemap (labels : List ℕ) (centers : List Pixel) : List ℕ :=
  (List.range 4).foldl
    (fun acc prev =>
      npPut acc (labels.map (fun l => if l = prev then 1 else 0))
        [(sorted_centers_args centers).getD prev 0])
    labels

/-- One element of `ColorFilter.treat_image`'s heterogeneous output list:
    three RGB rasters and the raw k-means label raster (stored flattened;
    the reshape to (n, n) is the row-major bijection). -/
inductive CFOut (n : ℕ) where
  | rgbIm (x : RGBr n n)
  | labelIm (x : List ℕ)

/-- The flat k-means labels of `ColorFilter` on the rescaled image: `kmO`
    embodies `KMeans(n_clusters=4, n_init=50).fit_predict` (labels) paired
    with the fitted `cluster_centers_`. -/
def cfLabels {n : ℕ} (img : RGBr n n)
    (kmO : List Pixel → List ℕ × List Pixel) : List ℕ :=
  (kmO (flattenPixels img)).1

/-- `k_means_4_image` after the remap loop, flattened. -/
def cfRemapped {n : ℕ} (img : RGBr n n)
    (kmO : List Pixel → List ℕ × List Pixel) : List ℕ :=
  cfRemap (cfLabels img kmO) (kmO (flattenPixels img)).2

/-- `k_means_4_image` viewed as an (n, n) raster. -/
def cfK2d {n : ℕ} (img : RGBr n n)
    (kmO : List Pixel → List ℕ × List Pixel) : Fin n → Fin n → ℕ :=
  fun i j => (cfRemapped img kmO).getD ((i : ℕ) * n + (j : ℕ)) 0

/-- `k_means_4_image_treated = grey2rgb(1 - k_means_4_image / k.max())`
    (methods.py lines 221-222). -/
def cfTreated {n : ℕ} (img : RGBr n n)
    (kmO : List Pixel → List ℕ × List Pixel) : RGBr n n :=
  grey2rgbFn (fun i j =>
    1 - (cfK2d img kmO i j : ℚ) / ((cfRemapped img kmO).max?.getD 0 : ℚ))

/-- `ColorFilter.treat_image` (methods.py lines 205-224) on the rescaled
    image. -/
def colorFilter_treat_image {n : ℕ} (img : RGBr n n)
    (kmO : List Pixel → List ℕ × List Pixel) : List (CFOut n) :=
  [CFOut.rgbIm img,
   CFOut.rgbIm (blendHalf (cfTreated img kmO) img),
   CFOut.rgbIm (cfTreated img kmO),
   CFOut.labelIm (cfRemapped img kmO)]

/-- One element of `Entropy.treat_image`'s output list. -/
inductive EntOut (h w : ℕ) where
  | rgbIm (x : RGBr h w)
  | greyIm (x : Gr h w)

/-- `Entropy.treat_image` (methods.py lines 229-238); `entropyO` embodies
    `skimage.filters.rank.entropy(final_image, disk(r))`. -/
def entropy_treat_image {h w : ℕ} (img : RGBr h w)
    (entropyO : Gr h w → ℕ → Gr h w) : List (EntOut h w) :=
  EntOut.rgbIm img ::
    ([10, 12, 15, 20, 25].map (fun r => EntOut.greyIm (entropyO (rgb2greyFn img) r)))

/-- `markers_for_component_detection` of `V1.treat_image` (methods.py lines
    256-258): zeros, then 2 at the positions holding the maximal cluster
    label, then 1 at the positions holding the minimal one (the later write
    wins when they coincide). -/
def v1Markers {n : ℕ} (img : RGBr n n)
    (kmO : List Pixel → List ℕ × List Pixel) : Gr n n :=
  fun i j =>
    let v := cfK2d img kmO i j
    let vmax := (cfRemapped img kmO).max?.getD 0
    let vmin := (cfRemapped img kmO).min?.getD 0
    if v = vmin then 1 else if v = vmax then 2 else 0

/-- `V1.treat_image` (methods.py lines 243-263) with every internal
    `rescale(image, 1/8)` replaced by the shared rescaled raster `img`
    (rescale is deterministic, so the three calls agree).  The list is
    `[rescaled] ++ color_filtered[:-1] ++ ComponentDetection()[1:] ++
    [treat_image_with_markers(...)[2]]`. -/
def v1_treat_image {n : ℕ} (img : RGBr n n)
    (pcaO : List Pixel → List ℚ)
    (kmO : List Pixel → List ℕ × List Pixel)
    (sobelO : Gr n n → Gr n n) : List (CFOut n) :=
  [CFOut.rgbIm img] ++
  (((colorFilter_treat_image img kmO).drop 1).take 2) ++
  ((componentDetection_treat_image img pcaO sobelO).drop 1).map CFOut.rgbIm ++
  [CFOut.rgbIm (cdwmWsImage img pcaO sobelO (v1Markers img kmO))]

/-- `Identity.treat_image` (methods.py lines 155-156). -/
def identity_treat_image (img : Img) : List Img := [img]

/-- `Grey.treat_image` (methods.py lines 40-41): returns the bare greyscale
    raster itself, not a list of images. -/
def grey_treat_image (img : Img) : List (List ℚ) := greyImg img

/-- `Equalizer.treat_image` (methods.py lines 268-269): a bare greyscale
    raster again; `equalizeO` embodies `equalize_adapthist`. -/
def equalizer_treat_image (equalizeO : Img → Img) (img : Img) : List (List ℚ) :=
  greyImg (equalizeO img)

/-- `Upsampling.treat_image` (bark_calculator_1 lines 296-297): the bare
    raster `rescale(image, 4)`; `rescaleO` embodies that library call. -/
def upsampling_treat_image (rescaleO : Img → Img) (img : Img) : Img :=
  rescaleO img

/-- `view_as_blocks(black_white, (16, 16))` followed by the per-block max
    (bark_calculator methods.py lines 289-295), on the 4096-by-4096 grid
    the two shape constants of `V2.treat_image` force. -/
def blockMax16 (g : Gr 4096 4096) : Gr 256 256 :=
  fun i j =>
    ((List.finRange 16).flatMap (fun (u : Fin 16) => (List.finRange 16).map (fun (v : Fin 16) =>
      g ⟨16 * (i : ℕ) + u.val, by have := i.isLt; have := u.isLt; omega⟩
        ⟨16 * (j : ℕ) + v.val, by have := j.isLt; have := v.isLt; omega⟩))).max?.getD 0

/-- `V2.get_hist` (methods.py lines 321-326): zeros, then 1 where the value
    is below `h`, then 2 where it is above `l` (the later write wins; the
    two conditions are disjoint for the thresholds used). -/
def get_hist {a b : ℕ} (g : Gr a b) (hq lq : ℚ) : Gr a b :=
  fun i j =>
    let r0 : ℚ := 0
    let r1 : ℚ := if g i j < hq then 1 else r0
    if g i j > lq then 2 else r1

/-- Column minimum of a raster (for the per-column behaviour of sklearn
    `minmax_scale` on 2-D input). -/
def colMin {a b : ℕ} (g : Gr a b) (j : Fin b) : ℚ :=
  ((List.finRange a).map (fun i => g i j)).min?.getD 0

/-- Column maximum of a raster. -/
def colMax {a b : ℕ} (g : Gr a b) (j : Fin b) : ℚ :=
  ((List.finRange a).map (fun i => g i j)).max?.getD 0

/-- sklearn `minmax_scale` applied to a 2-D array: each column is scaled
    independently by its own range (zero ranges replaced by 1). -/
def minmaxColFn {a b : ℕ} (g : Gr a b) : Gr a b :=
  fun i j =>
    let mn := colMin g j
    let d := if colMax g j = mn then 1 else colMax g j - mn
    (g i j - mn) / d

/-- One element of the earlier `V2.treat_image`'s heterogeneous output. -/
inductive V2Out where
  | grey4096 (x : Gr 4096 4096)
  | grey256 (x : Gr 256 256)
  | rgbIm (x : RGBr 4096 4096)

/-- The earlier revision `V2.treat_image` (bark_calculator methods.py lines
    279-319).  The `(16, 16)` block view and the later boolean indexing of
    the 4096-resized watershed copy against `big_image` force the input to
    be 4096-by-4096.  `equalizeO`, `sobelO` and `resizeO` embody
    `equalize_adapthist`, `sobel` and `resize(ws_copy, (4096, 4096))`. -/
def v2rev0_treat_image (img : RGBr 4096 4096)
    (equalizeO : RGBr 4096 4096 → RGBr 4096 4096)
    (sobelO : Gr 256 256 → Gr 256 256)
    (resizeO : Gr 256 256 → Gr 4096 4096) : List V2Out :=
  let big_black_mask := make_mask_fn img
  let big_image0 : RGBr 4096 4096 :=
    fun i j => if !(big_black_mask i j) then ((1 : ℚ), (1 : ℚ), (1 : ℚ)) else img i j
  let black_white := rgb2greyFn (equalizeO img)
  let max_view := blockMax16 black_white
  let hist := get_hist max_view (55 / 100) (70 / 100)
  let black_mask := make_mask_fn (grey2rgbFn max_view)
  let edges := minmaxColFn (sobelO hist)
  let markers : Gr 256 256 :=
    fun i j =>
      if 2 / 5 < edges i j ∧ edges i j < 3 / 5 then 3
      else if !(black_mask i j) then 0 else hist i j
  let ws := wsModel edges markers black_mask
  let ws_copy : Gr 256 256 := fun i j => if ws i j > 1 then 0 else ws i j
  let ws4096 := minmaxColFn (resizeO ws_copy)
  let big_image : RGBr 4096 4096 :=
    fun i j => if ws4096 i j = 1 then ((0 : ℚ), (0 : ℚ), (0 : ℚ)) else big_image0 i j
  let big_image_2 : RGBr 4096 4096 :=
    fun i j => if ¬(ws4096 i j = 1) then ((0 : ℚ), (0 : ℚ), (0 : ℚ)) else big_image0 i j
  [V2Out.grey4096 (fun i j => 1 - black_white i j),
   V2Out.grey256 (fun i j => 1 - max_view i j),
   V2Out.grey256 ws_copy,
   V2Out.rgbIm img,
   V2Out.rgbIm big_image,
   V2Out.rgbIm big_image_2]

/-- Channel sum of a pixel (`np.sum(image, axis=-1)` pointwise). -/
def sumChannels (p : Pixel) : ℚ := p.1 + p.2.1 + p.2.2

/-- numpy `np.argmax` of a 1-D boolean array: the index of the first
    `True`, and 0 when every entry is `False` (the first occurrence of the
    maximal value `False`). -/
def npArgmax (l : List Bool) : ℕ := (l.findIdx? id).getD 0

/-- `BlackTrimmer.make_trimmer` (bark_calculator_1 lines 195-204): sum the
    channels, threshold at 1e-3, call a line "clear enough" when the mean
    of its boolean row exceeds 0.85, and return
    `(argmax(flags), 2048 - argmax(reversed flags))` — the literal 2048 is
    hard-coded in the source. -/
def make_trimmer (img : Img) : ℕ × ℕ :=
  let summed_image := img.map (fun row => row.map sumChannels)
  let summed_bool := summed_image.map (fun row => row.map (fun x => decide (x > 1 / 1000)))
  let clear_enough_lines_idx :=
    summed_bool.map (fun row => decide (((row.countP id : ℚ) / row.length) > 17 / 20))
  (npArgmax clear_enough_lines_idx, 2048 - npArgmax clear_enough_lines_idx.reverse)

/-- The later revision `V2.treat_image` (bark_calculator_1 lines 278-285):
    resize to the fixed 2048-by-2048 canvas (`resizeO` embodies
    `resize(image, (2048, 2048), order=3)`), then return the *row* slice
    `image[first_idx:last_idx]`. -/
def v2_treat_image (resizeO : Img → Img) (img : Img) (image_type : String) : Img :=
  let image := resizeO img
  let p := make_trimmer image
  (image.drop p.1).take (p.2 - p.1)

/-- Whether a row is "real content" in the words of the specification: at
    least 85% of its summed-channel pixels exceed the near-zero threshold.
    Modelled from the spec for refinement comparison with the code. -/
def rowClearGE (row : List Pixel) : Bool :=
  decide ((((row.map sumChannels).countP (fun x => decide (x > 1 / 1000)) : ℚ) /
    row.length) ≥ 17 / 20)

/-- Whether column `j` is "real content" in the words of the specification:
    at least 85% of the column's summed-channel pixels exceed the near-zero
    threshold.  Modelled from the spec for refinement comparison. -/
def colClearGE (img : Img) (j : ℕ) : Bool :=
  decide ((((img.map (fun row => sumChannels (row.getD j (0, 0, 0)))).countP
    (fun x => decide (x > 1 / 1000)) : ℚ) / img.length) ≥ 17 / 20)

/-- The later `V2.treat_image` as the specification describes it: resize to
    2048-by-2048, then trim the non-content border rows *and columns*.
    Modelled from the spec's words for refinement comparison with
    `v2_treat_image`. -/
def v2_claim_treat_image (resizeO : Img → Img) (img : Img) (image_type : String) : Img :=
  let image := resizeO img
  let rowFlags := image.map rowClearGE
  let f := npArgmax rowFlags
  let l := 2048 - npArgmax rowFlags.reverse
  let colFlags := (List.range 2048).map (colClearGE image)
  let fc := npArgmax colFlags
  let lc := 2048 - npArgmax colFlags.reverse
  ((image.drop f).take (l - f)).map (fun row => (row.drop fc).take (lc - fc))


/-- The per-row "clear enough" test of `make_trimmer`, as a single
    predicate: the mean of the thresholded summed-channel row (the fraction
    of entries exceeding 1e-3) strictly exceeds 0.85.  `make_trimmer`'s
    three maps compose to mapping this predicate over the rows. -/
def rowClearFlag (row : List Pixel) : Bool :=
  decide ((((((row.map sumChannels).map
      (fun x => decide (x > 1 / 1000))).countP id : ℕ) : ℚ) /
    ((row.map sumChannels).map (fun x => decide (x > 1 / 1000))).length) > 17 / 20)

/-- Reference form of the `np.put`-on-`np.where` scatter, used to reason
    about `finalFlatOf`: walk the flattened mask, emitting the next value of
    `v` at each `true` position and 0 at each `false` one (`k` counts the
    values consumed so far, matching `npPutAux`'s running value index). -/
def scatterAux (m : List Bool) (v : List ℚ) (k : ℕ) : List ℚ :=
  match m with
  | [] => []
  | b :: rest =>
    if b then v.getD (k % v.length) 0 :: scatterAux rest v (k + 1)
    else 0 :: scatterAux rest v k

/-- Concrete 4-by-4 rescaled raster for the C1 counterexample: column 2 is
    pure black (masked out); the valid columns 0, 1 and 3 hold the pixels
    `t * (1/3, 2/3, 2/3)` for `t = 1`, `t = 1/5` and `t = 11/20`
    respectively (grey values 143/240, 143/1200 and 1573/4800, all at or
    above 0.05, and every row mean is 5005/19200 >= 0.1, so exactly column
    2 is invalid).  The valid region has two connected components: columns
    0-1 and column 3. -/
def cexImg : RGBr 4 4 :=
  fun _ j =>
    if (j : ℕ) = 0 then (1 / 3, 2 / 3, 2 / 3)
    else if (j : ℕ) = 1 then (1 / 15, 2 / 15, 2 / 15)
    else if (j : ℕ) = 2 then (0, 0, 0)
    else (11 / 60, 11 / 30, 11 / 30)

/-- Concrete PCA oracle for the C1 counterexample, supplying exactly the
    scores `sklearn.decomposition.PCA(n_components=1).fit_transform`
    produces on `cexImg`'s valid pixels.  Those 12 samples (row-major:
    columns 0, 1, 3 of each row) are `t * u` with `u = (1/3, 2/3, 2/3)` a
    unit vector and `t` cycling through 1, 1/5, 11/20, whose mean is 7/12.
    The centred data `(t - 7/12) * u` is exactly rank one along `u`, so the
    sole principal axis is `u` up to sign and `fit_transform` returns
    `(t - 7/12)` up to sign; sklearn's `svd_flip` sign convention makes the
    largest-magnitude score positive, and the unique largest magnitude 5/12
    belongs to `t = 1` with positive centred value, fixing the scores to
    exactly `t - 7/12`: 5/12, -23/60, -1/30 per row.  Their min-max rescale
    is 1, 0, 7/16, so `1 - minmax_scale` puts 0 on column 0 (marker 1), 1
    on column 1 (marker 2) and 9/16 on column 3 — strictly between 0.45 and
    0.6, leaving the isolated column-3 component without any watershed
    marker. -/
def cexPca : List Pixel → List ℚ :=
  fun _ =>
    [5 / 12, -23 / 60, -1 / 30, 5 / 12, -23 / 60, -1 / 30,
     5 / 12, -23 / 60, -1 / 30, 5 / 12, -23 / 60, -1 / 30]

/-- An identity sobel oracle for concrete instantiations (the watershed
    model ignores the elevation raster). -/
def cexSobel {n : ℕ} : Gr n n → Gr n n := fun g => g

/-- Concrete 2-row, 1-column rescaled raster for the C3 counterexample:
    both pixels valid mid-grey; its spatial pixel count is 2 while
    `final_image` is allocated with `shape[0] * shape[0] = 4` cells. -/
def cexImg21 : RGBr 2 1 := fun _ _ => (1 / 2, 1 / 2, 1 / 2)

/-- A PCA oracle returning a zero score per selected pixel. -/
def pcaZero : List Pixel → List ℚ := fun l => l.map (fun _ => 0)

/-- Concrete centroids with pairwise distinct norms for the C6 theorems. -/
def cexCenters : List Pixel := [(1, 0, 0), (2, 0, 0), (3, 0, 0), (4, 0, 0)]

/-- One row of the C7 counterexample canvas: a black pixel followed by 2047
    white pixels. -/
def cexRow : List Pixel := (0, 0, 0) :: List.replicate 2047 (1, 1, 1)

/-- The 2048-by-2048 C7 counterexample canvas: every row is `cexRow`, so
    every row is content (2047/2048 of it exceeds the threshold) while
    column 0 is entirely black. -/
def cexCanvas : Img := List.replicate 2048 cexRow

/-- A resize oracle returning the canvas (standing for
    `resize(image, (2048, 2048))` on an input that resizes to it). -/
def cexResize : Img → Img := fun _ => cexCanvas

/-- Row `i` of `greyImg` is the grey conversion of row `i` of the image. -/
theorem greyImg_getD (img : Img) (i : ℕ) :
    (greyImg img).getD i [] = (img.getD i []).map greyPix := by
  unfold greyImg
  rcases Nat.lt_or_ge i img.length with hi | hi
  · rw [List.getD_eq_getElem?_getD, List.getElem?_map, List.getElem?_eq_getElem hi,
      List.getD_eq_getElem?_getD, List.getElem?_eq_getElem hi]
    rfl
  · rw [List.getD_eq_default _ _ (by simpa using hi), List.getD_eq_default _ _ hi]
    rfl

/-- Row `i` of `make_mask`, for an in-range row index. -/
theorem make_mask_getD (img : Img) (i : ℕ) (hi : i < img.length) :
    (make_mask img).getD i [] =
      ((img.getD i []).map greyPix).map
        (fun g => !(decide (g < 1 / 20)) &&
          !(decide (listMean ((img.getD i []).map greyPix) < 1 / 10))) := by
  unfold make_mask greyImg
  rw [List.getD_eq_getElem?_getD, List.getElem?_map, List.getElem?_map,
    List.getElem?_eq_getElem hi, List.getD_eq_getElem?_getD (l := img),
    List.getElem?_eq_getElem hi]
  rfl

/-- Entry of `make_mask` at an in-range position, as the conjunction of the
    two negated blackness conditions. -/
theorem make_mask_entry (img : Img) (i j : ℕ) (hi : i < img.length)
    (hj : j < (img.getD i []).length) :
    ((make_mask img).getD i []).getD j true =
      (!(decide (greyPix ((img.getD i []).getD j (0, 0, 0)) < 1 / 20)) &&
        !(decide (listMean ((greyImg img).getD i []) < 1 / 10))) := by
  rw [make_mask_getD img i hi, greyImg_getD img i]
  rw [List.getD_eq_getElem?_getD, List.getElem?_map, List.getElem?_map,
    List.getElem?_eq_getElem hj, List.getD_eq_getElem?_getD (l := img.getD i []),
    List.getElem?_eq_getElem hj]
  rfl

/-- Rows of `make_mask` have the lengths of the image's rows (also out of
    range, where both default to `[]`). -/
theorem make_mask_row_length (img : Img) (i : ℕ) :
    ((make_mask img).getD i []).length = (img.getD i []).length := by
  rcases Nat.lt_or_ge i img.length with hi | hi
  · rw [make_mask_getD img i hi]
    simp
  · rw [List.getD_eq_default _ _ (by simpa [make_mask, greyImg] using hi),
      List.getD_eq_default _ _ hi]
    rfl

/-- C2: `BlackMask.make_mask` returns a boolean raster of the image's
    spatial (height-by-width) shape; a pixel is invalid (`false`) exactly
    when its grey intensity is below 0.05 or its row's mean grey intensity
    is below 0.1; when every pixel's grey value exceeds 0.05 and every
    row's mean exceeds 0.1, the mask is all-`true`. -/
theorem c2_make_mask_spec (img : Img) :
    ((make_mask img).length = img.length ∧
      ∀ i : ℕ, ((make_mask img).getD i []).length = (img.getD i []).length) ∧
    (∀ i : ℕ, i < img.length → ∀ j : ℕ, j < (img.getD i []).length →
      (((make_mask img).getD i []).getD j true = false ↔
        (greyPix ((img.getD i []).getD j (0, 0, 0)) < 1 / 20 ∨
          listMean ((greyImg img).getD i []) < 1 / 10))) ∧
    ((∀ i : ℕ, i < img.length → listMean ((greyImg img).getD i []) > 1 / 10) →
      (∀ i : ℕ, i < img.length → ∀ j : ℕ, j < (img.getD i []).length →
        greyPix ((img.getD i []).getD j (0, 0, 0)) > 1 / 20) →
      ∀ i j : ℕ, ((make_mask img).getD i []).getD j true = true) := by
  refine ⟨⟨by simp [make_mask, greyImg], make_mask_row_length img⟩, ?_, ?_⟩
  · intro i hi j hj
    rw [make_mask_entry img i j hi hj]
    simp only [Bool.and_eq_false_iff, Bool.not_eq_false', decide_eq_true_eq]
  · intro hrow hpix i j
    by_cases hi : i < img.length
    · by_cases hj : j < (img.getD i []).length
      · rw [make_mask_entry img i j hi hj]
        rw [decide_eq_false (not_lt.mpr (le_of_lt (hpix i hi j hj))),
          decide_eq_false (not_lt.mpr (le_of_lt (hrow i hi)))]
        rfl
      · apply List.getD_eq_default
        have hlen := make_mask_row_length img i
        omega
    · have hrow0 : (make_mask img).getD i [] = [] :=
        List.getD_eq_default _ _ (by simpa [make_mask, greyImg] using Nat.le_of_not_lt hi)
      rw [hrow0]
      rfl

/-- C2 witness: instantiating the theorem on a concrete 1-by-1 mid-grey
    image, whose thresholds are all exceeded. -/
theorem c2_make_mask_spec_witness :
    ((make_mask [[((1 : ℚ) / 2, (1 : ℚ) / 2, (1 : ℚ) / 2)]]).getD 0 []).getD 0 true = true :=
  (c2_make_mask_spec [[((1 : ℚ) / 2, (1 : ℚ) / 2, (1 : ℚ) / 2)]]).2.2
    (by with_unfolding_all decide) (by with_unfolding_all decide) 0 0

/-- C10: the masked array built by `BlackMask.treat_image` receives
    `make_mask`'s output directly as its numpy mask; numpy hides entries
    where the mask is `True` and `make_mask` uses `True` for valid pixels,
    so the hidden entries are exactly the valid (non-near-black) pixels and
    the near-black ones are left visible. -/
theorem c10_blackMask_masked_entries (img : Img) :
    (blackMask_treat_image img).1 = img ∧
    (blackMask_treat_image img).2.mask = make_mask img ∧
    (blackMask_treat_image img).2.data = greyImg img ∧
    ∀ i : ℕ, i < img.length → ∀ j : ℕ, j < (img.getD i []).length →
      ((blackMask_treat_image img).2.hiddenAt i j = true ↔
        ¬(greyPix ((img.getD i []).getD j (0, 0, 0)) < 1 / 20 ∨
          listMean ((greyImg img).getD i []) < 1 / 10)) := by
  refine ⟨rfl, rfl, rfl, ?_⟩
  intro i hi j hj
  have hlen : j < ((make_mask img).getD i []).length := by
    rw [make_mask_row_length img i]
    exact hj
  have hgen : ∀ (l : List Bool) (k : ℕ), k < l.length → l.getD k false = l.getD k true := by
    intro l k hk
    rw [List.getD_eq_getElem?_getD, List.getD_eq_getElem?_getD, List.getElem?_eq_getElem hk]
    rfl
  show ((make_mask img).getD i []).getD j false = true ↔ _
  rw [hgen _ j hlen, make_mask_entry img i j hi hj]
  simp only [Bool.and_eq_true, Bool.not_eq_true', decide_eq_false_iff_not, not_or]

/-- C10 witness: on a 1-by-1 all-black image the only pixel is invalid
    under `make_mask`, hence visible (not hidden) in the masked array. -/
theorem c10_blackMask_masked_entries_witness :
    (blackMask_treat_image [[((0 : ℚ), (0 : ℚ), (0 : ℚ))]]).2.hiddenAt 0 0 = false := by
  have h := (c10_blackMask_masked_entries [[((0 : ℚ), (0 : ℚ), (0 : ℚ))]]).2.2.2
    0 (by decide) 0 (by decide)
  cases hb : (blackMask_treat_image [[((0 : ℚ), (0 : ℚ), (0 : ℚ))]]).2.hiddenAt 0 0 with
  | false => rfl
  | true => exact absurd (Or.inl (by with_unfolding_all decide)) (h.mp hb)

/-- C4 counterexample: in the type-aware revision, `treat_images` zips the
    images with the type tags, so a shorter tag list truncates the output:
    one image and zero tags yield zero outputs, not one. -/
theorem c4_counterexample :
    (treatImages2 (fun (a : ℕ) (_ : ℕ) => [a]) [5] []).length ≠ [5].length := by
  decide

/-- C4 (amended): the first-revision `treat_images` maps `treat_image` over
    the images in order, and the type-aware revision maps it over
    `zip(images, types)`: its output length is the minimum of the two input
    lengths — equal to the image count exactly when the tag list is at
    least as long — and the i-th output is `treat_image` of the i-th image
    and i-th tag. -/
theorem c4_treat_images_order :
    (∀ (α β : Type) (treat : α → β) (images : List α),
      (treatImages treat images).length = images.length ∧
      ∀ i : ℕ, (treatImages treat images)[i]? = images[i]?.map treat) ∧
    (∀ (α β γ : Type) (treat : α → γ → β) (images : List α) (types : List γ),
      (treatImages2 treat images types).length = min images.length types.length ∧
      (images.length ≤ types.length →
        (treatImages2 treat images types).length = images.length) ∧
      ∀ i : ℕ, (hi : i < images.length) → (ht : i < types.length) →
        (treatImages2 treat images types)[i]? =
          some (treat (images.get ⟨i, hi⟩) (types.get ⟨i, ht⟩))) := by
  constructor
  · intro α β treat images
    exact ⟨by simp [treatImages], fun i => by simp [treatImages]⟩
  · intro α β γ treat images types
    have hmin : (treatImages2 treat images types).length = min images.length types.length := by
      simp [treatImages2]
    refine ⟨hmin, fun hle => by rw [hmin]; omega, ?_⟩
    intro i hi ht
    have hz : i < (images.zip types).length := by
      rw [List.length_zip]
      omega
    unfold treatImages2
    rw [List.getElem?_map, List.getElem?_eq_getElem hz]
    simp [List.getElem_zip]

/-- C4 witness: the amended theorem instantiated on two images and two
    tags, recovering the second output in order. -/
theorem c4_treat_images_order_witness :
    (treatImages2 (fun (a b : ℕ) => a + b) [1, 2] [10, 20])[1]? = some 22 := by
  have h := (c4_treat_images_order).2 ℕ ℕ ℕ (fun a b => a + b) [1, 2] [10, 20]
  have h2 := h.2.2 1 (by decide) (by decide)
  simpa using h2

/-- C8: the builder maps each of the seven configuration names to an
    instance of the corresponding strategy class, and every other name
    falls through all branches to Python `None`. -/
theorem c8_builder_spec :
    build_from_treatment_method_arg "edge_detection" = some Strategy.edgeDetection ∧
    build_from_treatment_method_arg "id" = some Strategy.identity ∧
    build_from_treatment_method_arg "black_filter" = some Strategy.blackFilter ∧
    build_from_treatment_method_arg "black_mask" = some Strategy.blackMask ∧
    build_from_treatment_method_arg "color_filter" = some Strategy.colorFilter ∧
    build_from_treatment_method_arg "component_detection" = some Strategy.componentDetection ∧
    build_from_treatment_method_arg "threshold" = some Strategy.thresholding ∧
    ∀ s : String,
      s ∉ ["edge_detection", "id", "black_filter", "black_mask", "color_filter",
        "component_detection", "threshold"] →
      build_from_treatment_method_arg s = none := by
  refine ⟨rfl, rfl, rfl, rfl, rfl, rfl, rfl, ?_⟩
  intro s hs
  simp only [List.mem_cons, List.not_mem_nil, or_false, not_or] at hs
  obtain ⟨h1, h2, h3, h4, h5, h6, h7⟩ := hs
  simp [build_from_treatment_method_arg, h1, h2, h3, h4, h5, h6, h7]

/-- C8 witness: an eighth, unrecognized name yields no instance. -/
theorem c8_builder_spec_witness :
    build_from_treatment_method_arg "otsu" = none :=
  c8_builder_spec.2.2.2.2.2.2.2 "otsu" (by decide)

/-- C9: `treat_image_with_markers` leaves the caller's markers array (the
    second component of the embedding, standing for the argument object
    after the call) zeroed at exactly the positions invalid under the black
    mask freshly computed from the rescaled image, unchanged elsewhere; the
    watershed of the returned images runs on that updated array. -/
theorem c9_markers_mutated_in_place {n : ℕ} (img : RGBr n n)
    (pcaO : List Pixel → List ℚ) (sobelO : Gr n n → Gr n n) (markers : Gr n n) :
    (∀ i j, (componentDetection_treat_image_with_markers img pcaO sobelO markers).2 i j =
      if make_mask_fn img i j = true then markers i j else 0) ∧
    (componentDetection_treat_image_with_markers img pcaO sobelO markers).1 =
      [img, blendHalf img (cdwmWsImage img pcaO sobelO markers),
        cdwmWsImage img pcaO sobelO markers] ∧
    cdwmWS img pcaO sobelO markers =
      wsModel (sobelO (finalImageSq img pcaO))
        ((componentDetection_treat_image_with_markers img pcaO sobelO markers).2)
        (make_mask_fn img) := by
  refine ⟨?_, rfl, rfl⟩
  intro i j
  show cdwmMarkers img markers i j = _
  unfold cdwmMarkers
  cases h : make_mask_fn img i j <;> simp [h]

/-- `npPutAux` on shifted indices leaves the head cell alone and acts on
    the tail. -/
theorem npPutAux_map_succ {α : Type} [Inhabited α] (a0 : α) (a : List α)
    (ind : List ℕ) (v : List α) (k : ℕ) :
    npPutAux (a0 :: a) (ind.map (· + 1)) v k = a0 :: npPutAux a ind v k := by
  induction ind generalizing a k with
  | nil => rfl
  | cons q rest ih =>
    simp only [List.map_cons, npPutAux, List.set]
    exact ih _ _

/-- `npPutAux` preserves the array's length. -/
theorem npPutAux_length {α : Type} [Inhabited α] (a : List α) (ind : List ℕ)
    (v : List α) (k : ℕ) : (npPutAux a ind v k).length = a.length := by
  induction ind generalizing a k with
  | nil => rfl
  | cons q rest ih => simp [npPutAux, ih]

/-- The `np.put`-on-`np.where` combination scatters the values across the
    `true` positions of the mask: bridge to the reference `scatterAux`. -/
theorem npPutAux_whereList (m : List Bool) (v : List ℚ) (k : ℕ) :
    npPutAux (List.replicate m.length 0) (whereList m) v k = scatterAux m v k := by
  induction m generalizing k with
  | nil => rfl
  | cons b rest ih =>
    cases b
    · simp only [whereList, List.length_cons, List.replicate_succ]
      rw [npPutAux_map_succ, ih]
      rfl
    · simp only [whereList, List.length_cons, List.replicate_succ, npPutAux, List.set]
      rw [npPutAux_map_succ, ih]
      rfl

/-- Length of the reference scatter. -/
theorem scatterAux_length (m : List Bool) (v : List ℚ) (k : ℕ) :
    (scatterAux m v k).length = m.length := by
  induction m generalizing k with
  | nil => rfl
  | cons b rest ih => cases b <;> simp [scatterAux, ih]

/-- Entry of the reference scatter: the next-unconsumed value at each valid
    position (cycled as `np.put` cycles), 0 at each invalid one. -/
theorem scatterAux_getD (m : List Bool) (v : List ℚ) (k q : ℕ) (hq : q < m.length) :
    (scatterAux m v k).getD q 0 =
      if m.getD q false = true then v.getD ((k + rankOf m q) % v.length) 0 else 0 := by
  induction m generalizing k q with
  | nil => simp at hq
  | cons b rest ih =>
    cases q with
    | zero => cases b <;> simp [scatterAux, rankOf]
    | succ q =>
      have hq' : q < rest.length := by simpa using hq
      cases b
      · simpa [scatterAux, rankOf] using ih k q hq'
      · have := ih (k + 1) q hq'
        simp only [scatterAux, if_true, List.getD_cons_succ, rankOf, List.take_succ_cons,
          List.countP_cons, id] at this ⊢
        rw [this]
        have harith : k + 1 + (rest.take q).countP id =
            k + ((rest.take q).countP id + 1) := by omega
        simp [harith]

/-- The number of selected pixels equals the number of `true` entries of
    the flattened mask. -/
theorem selPixels_length {h w : ℕ} (img : RGBr h w) (m : MaskB h w) :
    (selPixels img m).length = (maskFlatOf m).countP id := by
  unfold selPixels maskFlatOf
  induction (List.finRange h) with
  | nil => rfl
  | cons i rest ih =>
    simp only [List.flatMap_cons, List.length_append, List.countP_append, ih]
    congr 1
    induction (List.finRange w) with
    | nil => rfl
    | cons j rest2 ih2 =>
      cases hm : m i j <;>
        simp [List.filterMap_cons, List.countP_cons, hm, ih2]

/-- A valid position's rank is strictly below the total count of valid
    positions. -/
theorem rankOf_lt_countP (m : List Bool) (q : ℕ) (hq : q < m.length)
    (hm : m.getD q false = true) : rankOf m q < m.countP id := by
  have hsplit : m = m.take q ++ m.drop q := (List.take_append_drop q m).symm
  have hdrop : m.drop q = m[q] :: m.drop (q + 1) := List.drop_eq_getElem_cons hq
  have hget : m[q] = true := by
    rw [List.getD_eq_getElem?_getD, List.getElem?_eq_getElem hq] at hm
    simpa using hm
  calc rankOf m q = (m.take q).countP id := rfl
    _ < (m.take q).countP id + (m.drop q).countP id := by
        rw [hdrop, List.countP_cons, hget]
        simp
    _ = m.countP id := by
        conv_rhs => rw [hsplit]
        rw [List.countP_append]

/-- Flattened access into a row-major flatMap of constant-width rows. -/
theorem flatten_const_getD {α : Type} (d : α) (w : ℕ) :
    ∀ (rows : List (List α)), (∀ r ∈ rows, r.length = w) →
      ∀ (i j : ℕ), j < w → i < rows.length →
        rows.flatten.getD (i * w + j) d = (rows.getD i []).getD j d := by
  intro rows
  induction rows with
  | nil => intro _ i j _ hi; simp at hi
  | cons r rest ih =>
    intro hrows i j hj hi
    have hr : r.length = w := hrows r (by simp)
    cases i with
    | zero =>
      simp only [List.flatten_cons, Nat.zero_mul, Nat.zero_add, List.getD_cons_zero]
      exact List.getD_append _ _ _ _ (by omega)
    | succ i =>
      have harith : (i + 1) * w + j = r.length + (i * w + j) := by
        rw [hr]
        ring
      simp only [List.flatten_cons, harith, List.getD_cons_succ]
      rw [List.getD_append_right _ _ _ _ (by omega)]
      have : r.length + (i * w + j) - r.length = i * w + j := by omega
      rw [this]
      exact ih (fun s hs => hrows s (by simp [hs])) i j hj (by simpa using hi)

/-- The flattened mask's length is the pixel count. -/
theorem maskFlat_length {h w : ℕ} (m : MaskB h w) : (maskFlatOf m).length = h * w := by
  unfold maskFlatOf
  rw [List.length_flatMap]
  simp only [Function.comp_def]
  have h1 : ((List.finRange h).map (fun i => ((List.finRange w).map (fun j => m i j)).length)) =
      List.replicate h w := by
    have h2 : ((List.finRange h).map (fun i => ((List.finRange w).map (fun j => m i j)).length)) =
        (List.finRange h).map (fun _ => w) := by simp
    rw [h2, List.map_const', List.length_finRange]
  rw [h1, List.sum_replicate, smul_eq_mul, Nat.mul_comm]

/-- The flattened mask agrees with the mask under row-major indexing. -/
theorem maskFlat_getD {h w : ℕ} (m : MaskB h w) (i : Fin h) (j : Fin w) :
    (maskFlatOf m).getD ((i : ℕ) * w + (j : ℕ)) false = m i j := by
  unfold maskFlatOf
  rw [List.flatMap_def]
  rw [flatten_const_getD false w _ (by intro r hr; simp at hr; obtain ⟨a, rfl⟩ := hr; simp)
    (i : ℕ) (j : ℕ) j.isLt (by simpa using i.isLt)]
  have hrow : ((List.finRange h).map (fun i => (List.finRange w).map (fun j => m i j))).getD
      (i : ℕ) [] = (List.finRange w).map (fun j => m i j) := by
    rw [List.getD_eq_getElem?_getD, List.getElem?_map,
      List.getElem?_eq_getElem (by simpa using i.isLt)]
    simp
  rw [hrow, List.getD_eq_getElem?_getD, List.getElem?_map,
    List.getElem?_eq_getElem (by simpa using j.isLt)]
  simp

/-- Any entry of a zero raster reads 0. -/
theorem replicate_getD_zero (k q : ℕ) : (List.replicate k (0 : ℚ)).getD q 0 = 0 := by
  rcases Nat.lt_or_ge q k with h | h
  · rw [List.getD_eq_getElem?_getD, List.getElem?_replicate]
    simp [h]
  · rw [List.getD_eq_default]
    simpa using h

/-- Row-major flat index bound. -/
theorem flatIdx_lt {n : ℕ} (i j : Fin n) : (i : ℕ) * n + (j : ℕ) < n * n := by
  calc (i : ℕ) * n + (j : ℕ) < (i : ℕ) * n + n := by omega
    _ = ((i : ℕ) + 1) * n := by ring
    _ ≤ n * n := Nat.mul_le_mul_right n i.isLt

/-- C3 counterexample: on a 2-row, 1-column rescaled image the scatter
    target `np.zeros((image.shape[0], image.shape[0]))` holds 4 cells, not
    the 2 of the image's spatial shape, so `final_image` does not have the
    spatial shape the claim asserts. -/
theorem c3_counterexample : (finalFlatOf cexImg21 pcaZero).length ≠ 2 * 1 := by
  with_unfolding_all decide

/-- C3 (amended): the raster `final_image` is `shape[0]`-by-`shape[0]`; on
    a *square* rescaled image (the only case in which the pipeline is
    consistent) the inverted rescaled first-principal-component score of
    each valid pixel lands at that pixel's row-major position — the score
    whose index is the pixel's rank among the valid pixels — and every
    invalid pixel stays at the 0 the raster was initialized with. -/
theorem c3_pca_scatter (n : ℕ) (img : RGBr n n) (pcaO : List Pixel → List ℚ)
    (hlen : (pcaO (selPixels img (make_mask_fn img))).length =
      (selPixels img (make_mask_fn img)).length) :
    (finalFlatOf img pcaO).length = n * n ∧
    ∀ i j : Fin n,
      finalImageSq img pcaO i j =
        if make_mask_fn img i j = true then
          (bwpcaOf img pcaO).getD
            (rankOf (maskFlatOf (make_mask_fn img)) ((i : ℕ) * n + (j : ℕ))) 0
        else 0 := by
  have hmf : (maskFlatOf (make_mask_fn img)).length = n * n := maskFlat_length _
  have hbw : (bwpcaOf img pcaO).length = (maskFlatOf (make_mask_fn img)).countP id := by
    unfold bwpcaOf minmax_scale
    simp [hlen, selPixels_length]
  by_cases hv : bwpcaOf img pcaO = []
  · have hcount : (maskFlatOf (make_mask_fn img)).countP id = 0 := by
      rw [← hbw, hv]
      rfl
    have hfinal : finalFlatOf img pcaO = List.replicate (n * n) 0 := by
      unfold finalFlatOf npPut
      rw [hv]
      rfl
    refine ⟨by rw [hfinal]; simp, ?_⟩
    intro i j
    have hq : (i : ℕ) * n + (j : ℕ) < (maskFlatOf (make_mask_fn img)).length := by
      rw [hmf]
      exact flatIdx_lt i j
    have hmij : make_mask_fn img i j = false := by
      have hmem := List.countP_eq_zero.mp hcount
        ((maskFlatOf (make_mask_fn img)).get ⟨(i : ℕ) * n + (j : ℕ), hq⟩)
        (List.get_mem _ _ hq)
      have hg : (maskFlatOf (make_mask_fn img)).getD ((i : ℕ) * n + (j : ℕ)) false =
          (maskFlatOf (make_mask_fn img)).get ⟨(i : ℕ) * n + (j : ℕ), hq⟩ := by
        rw [List.getD_eq_getElem?_getD, List.getElem?_eq_getElem hq]
        rfl
      rw [← maskFlat_getD (w := n) (make_mask_fn img) i j, hg]
      simpa using hmem
    rw [hmij]
    show (finalFlatOf img pcaO).getD ((i : ℕ) * n + (j : ℕ)) 0 = _
    rw [hfinal, replicate_getD_zero]
    rfl
  · have hbridge : finalFlatOf img pcaO =
        scatterAux (maskFlatOf (make_mask_fn img)) (bwpcaOf img pcaO) 0 := by
      unfold finalFlatOf npPut
      rw [if_neg (by simpa [List.isEmpty_iff] using hv), ← hmf]
      exact npPutAux_whereList _ _ 0
    have hq : ∀ i j : Fin n,
        (i : ℕ) * n + (j : ℕ) < (maskFlatOf (make_mask_fn img)).length := by
      intro i j
      rw [hmf]
      exact flatIdx_lt i j
    refine ⟨by rw [hbridge, scatterAux_length, hmf], ?_⟩
    intro i j
    show (finalFlatOf img pcaO).getD ((i : ℕ) * n + (j : ℕ)) 0 = _
    rw [hbridge, scatterAux_getD _ _ 0 _ (hq i j), maskFlat_getD]
    cases hmm : make_mask_fn img i j
    · simp [hmm]
    · have hrnk := rankOf_lt_countP _ _ (hq i j)
        (by rw [maskFlat_getD]; exact hmm)
      simp only [hmm, if_true, Nat.zero_add]
      rw [Nat.mod_eq_of_lt (by omega)]

/-- C3 witness: on the 1-by-1 mid-grey image the single valid pixel's
    inverted rescaled score (the constant column scales to 0, inverted to
    1) lands at position (0, 0). -/
theorem c3_pca_scatter_witness :
    finalImageSq (fun _ _ => ((1 : ℚ) / 2, 1 / 2, 1 / 2) : RGBr 1 1) pcaZero 0 0 = 1 := by
  have h := (c3_pca_scatter 1 (fun _ _ => ((1 : ℚ) / 2, 1 / 2, 1 / 2)) pcaZero
    (by with_unfolding_all decide)).2 0 0
  rw [h]
  with_unfolding_all decide

/-- One flooding step only produces 0 or values already present in the
    raster: labels never leave a set containing 0 and all current values. -/
theorem wsStep_mem {h w : ℕ} (mask : MaskB h w) (s : Gr h w) (S : Set ℚ)
    (h0 : (0 : ℚ) ∈ S) (hs : ∀ i j, s i j ∈ S) : ∀ i j, wsStep mask s i j ∈ S := by
  intro i j
  unfold wsStep
  by_cases h1 : s i j ≠ 0
  · rw [if_pos h1]
    exact hs i j
  · rw [if_neg h1]
    by_cases h2 : mask i j = true
    · rw [if_pos h2]
      cases hm : (((neighCells i j).map (fun q => s q.1 q.2)).filter
          (fun x => decide (x ≠ 0))).min? with
      | none => exact h0
      | some x =>
        have hx : x ∈ ((neighCells i j).map (fun q => s q.1 q.2)).filter
            (fun x => decide (x ≠ 0)) :=
          List.min?_mem (fun a b => min_choice a b) hm
        have hx2 := List.mem_of_mem_filter hx
        obtain ⟨q, _, rfl⟩ := List.mem_map.mp hx2
        exact hs q.1 q.2
    · rw [if_neg h2]
      exact h0

/-- Labels of the watershed model stay in any set containing 0 and all
    marker values. -/
theorem wsModel_mem {h w : ℕ} (image markers : Gr h w) (mask : MaskB h w) (S : Set ℚ)
    (h0 : (0 : ℚ) ∈ S) (hm : ∀ i j, markers i j ∈ S) :
    ∀ i j, wsModel image markers mask i j ∈ S := by
  unfold wsModel
  generalize h * w = k
  induction k with
  | zero => exact hm
  | succ k ih =>
    intro i j
    rw [Function.iterate_succ_apply']
    exact wsStep_mem mask _ S h0 ih i j

/-- One flooding step keeps masked-out cells at 0. -/
theorem wsStep_zero_outside {h w : ℕ} (mask : MaskB h w) (s : Gr h w)
    (hz : ∀ i j, mask i j = false → s i j = 0) :
    ∀ i j, mask i j = false → wsStep mask s i j = 0 := by
  intro i j hm
  unfold wsStep
  rw [hz i j hm, if_neg (by norm_num)]
  rw [if_neg (by rw [hm]; exact Bool.false_ne_true)]

/-- The watershed model is 0 at every masked-out cell whenever the markers
    are (as `ComponentDetection` guarantees by `markers[~black_mask] = 0`). -/
theorem wsModel_zero_outside {h w : ℕ} (image markers : Gr h w) (mask : MaskB h w)
    (hz : ∀ i j, mask i j = false → markers i j = 0) :
    ∀ i j, mask i j = false → wsModel image markers mask i j = 0 := by
  unfold wsModel
  generalize h * w = k
  induction k with
  | zero => exact hz
  | succ k ih =>
    intro i j hm
    rw [Function.iterate_succ_apply']
    exact wsStep_zero_outside mask _ ih i j hm

/-- A cell whose own label and all of whose neighbours' labels are 0 stays
    0 after one flooding step. -/
theorem wsStep_eq_zero {h w : ℕ} (mask : MaskB h w) (s : Gr h w) (i : Fin h) (j : Fin w)
    (hsij : s i j = 0) (hnb : ∀ q ∈ neighCells i j, s q.1 q.2 = 0) :
    wsStep mask s i j = 0 := by
  unfold wsStep
  rw [hsij, if_neg (by norm_num)]
  have hfil : ((neighCells i j).map (fun q => s q.1 q.2)).filter
      (fun x => decide (x ≠ 0)) = [] := by
    rw [List.filter_eq_nil_iff]
    intro a ha
    obtain ⟨q, hq, rfl⟩ := List.mem_map.mp ha
    simp [hnb q hq]
  by_cases hmask : mask i j = true
  · rw [if_pos hmask, hfil]
    rfl
  · rw [if_neg hmask]

/-- A marker-free region of valid cells whose neighbours all lie in the
    region or outside the mask can never receive a label: the flood has no
    seed to reach it from.  (This is the skimage behaviour: unreached
    pixels keep the initial 0.) -/
theorem ws_isolated {h w : ℕ} (mask : MaskB h w) (markers : Gr h w)
    (C : Fin h → Fin w → Prop)
    (hCmark : ∀ i j, C i j → markers i j = 0)
    (hCnb : ∀ i j, C i j → ∀ q ∈ neighCells i j, C q.1 q.2 ∨ mask q.1 q.2 = false)
    (hMz : ∀ i j, mask i j = false → markers i j = 0) :
    ∀ k i j, C i j → (wsStep mask)^[k] markers i j = 0 := by
  have main : ∀ k, (∀ i j, mask i j = false → (wsStep mask)^[k] markers i j = 0) ∧
      (∀ i j, C i j → (wsStep mask)^[k] markers i j = 0) := by
    intro k
    induction k with
    | zero => exact ⟨hMz, hCmark⟩
    | succ k ih =>
      constructor
      · intro i j hm
        rw [Function.iterate_succ_apply']
        exact wsStep_zero_outside mask _ ih.1 i j hm
      · intro i j hC
        rw [Function.iterate_succ_apply']
        refine wsStep_eq_zero mask _ i j (ih.2 i j hC) ?_
        intro q hq
        rcases hCnb i j hC q hq with hqc | hqm
        · exact ih.2 q.1 q.2 hqc
        · exact ih.1 q.1 q.2 hqm
  exact fun k i j hC => (main k).2 i j hC

/-- The sequential marker writes of `ComponentDetection` produce exactly
    the three-way split the specification describes, with the mask override
    taking precedence (the two threshold conditions are disjoint). -/
theorem cdMarkers_characterization {n : ℕ} (img : RGBr n n)
    (pcaO : List Pixel → List ℚ) : ∀ i j,
    cdMarkers img pcaO i j =
      if make_mask_fn img i j = false then 0
      else if finalImageSq img pcaO i j > 3 / 5 then 2
      else if finalImageSq img pcaO i j < 9 / 20 then 1 else 0 := by
  intro i j
  unfold cdMarkers cdMarkersFrom
  by_cases hm : make_mask_fn img i j = true
  · simp only [hm, Bool.not_true, Bool.false_eq_true, if_false]
    by_cases h1 : finalImageSq img pcaO i j > 3 / 5 <;>
      by_cases h2 : finalImageSq img pcaO i j < 9 / 20 <;>
        simp [h1, h2] <;> linarith
  · have hm' : make_mask_fn img i j = false := by
      cases h : make_mask_fn img i j
      · rfl
      · exact absurd h hm
    simp [hm']

/-- The markers of `ComponentDetection` take values in {0, 1, 2} and are 0
    outside the mask. -/
theorem cdMarkers_range {n : ℕ} (img : RGBr n n) (pcaO : List Pixel → List ℚ) :
    (∀ i j, cdMarkers img pcaO i j ∈ ({0, 1, 2} : Set ℚ)) ∧
    (∀ i j, make_mask_fn img i j = false → cdMarkers img pcaO i j = 0) := by
  constructor
  · intro i j
    rw [cdMarkers_characterization img pcaO i j]
    split_ifs <;> simp
  · intro i j hm
    rw [cdMarkers_characterization img pcaO i j, if_pos hm]

/-- C1 (amended): `ComponentDetection.treat_image` builds the marker raster
    exactly as claimed — 2 where `final_image > 0.6`, 1 where
    `final_image < 0.45`, 0 elsewhere, with the mask override taking
    precedence — and the watershed label raster divided by 2 only takes the
    values 0, 0.5 and 1 and is 0 at every mask-invalid pixel.  A valid
    pixel can *also* be 0 when its connected valid region contains no
    marker (see the counterexample), so 0 is not attained exactly at the
    invalid pixels. -/
theorem c1_component_detection_labels (n : ℕ) (img : RGBr n n)
    (pcaO : List Pixel → List ℚ) (sobelO : Gr n n → Gr n n) :
    (∀ i j, cdMarkers img pcaO i j =
      if make_mask_fn img i j = false then 0
      else if finalImageSq img pcaO i j > 3 / 5 then 2
      else if finalImageSq img pcaO i j < 9 / 20 then 1 else 0) ∧
    (∀ i j, cdWS img pcaO sobelO i j / 2 ∈ ({0, 1 / 2, 1} : Set ℚ)) ∧
    (∀ i j, make_mask_fn img i j = false → cdWS img pcaO sobelO i j = 0) ∧
    (componentDetection_treat_image img pcaO sobelO).getD 2 (fun _ _ => (0, 0, 0)) =
      grey2rgbFn (fun i j => cdWS img pcaO sobelO i j / 2) := by
  refine ⟨cdMarkers_characterization img pcaO, ?_, ?_, rfl⟩
  · intro i j
    have hmem := wsModel_mem (sobelO (finalImageSq img pcaO)) (cdMarkers img pcaO)
      (make_mask_fn img) ({0, 1, 2} : Set ℚ) (by simp) (cdMarkers_range img pcaO).1 i j
    rcases hmem with h | h | h <;> rw [show cdWS img pcaO sobelO i j =
        wsModel (sobelO (finalImageSq img pcaO)) (cdMarkers img pcaO) (make_mask_fn img) i j
        from rfl, h] <;> norm_num
  · intro i j hm
    exact wsModel_zero_outside _ _ _ (cdMarkers_range img pcaO).2 i j hm

set_option maxRecDepth 100000 in
/-- C1 counterexample: on the concrete 4-by-4 raster `cexImg` with the PCA
    oracle `cexPca` (the exact `fit_transform` output on `cexImg`'s valid
    pixels), the valid column 3 is separated from the marked columns by the
    invalid column 2 and carries final value 9/16 — strictly between the
    marker thresholds 0.45 and 0.6, so no marker — and its watershed label
    stays 0 at a mask-valid pixel: the labels are not 0 *exactly* at the
    invalid pixels. -/
theorem c1_counterexample :
    ¬ ∀ i j : Fin 4, (cdWS cexImg cexPca cexSobel i j = 0 ↔
      make_mask_fn cexImg i j = false) := by
  intro hall
  have hzero : cdWS cexImg cexPca cexSobel 0 3 = 0 := by
    show wsModel _ (cdMarkers cexImg cexPca) (make_mask_fn cexImg) 0 3 = 0
    unfold wsModel
    refine ws_isolated (make_mask_fn cexImg) (cdMarkers cexImg cexPca)
      (fun i j => (j : ℕ) = 3) ?_ ?_ ?_ (4 * 4) 0 3 rfl
    · with_unfolding_all decide
    · with_unfolding_all decide
    · exact fun i j hm => (cdMarkers_range cexImg cexPca).2 i j hm
  have hmask : make_mask_fn cexImg 0 3 = true := by with_unfolding_all decide
  rw [(hall 0 3).mp hzero] at hmask
  exact Bool.false_ne_true hmask

/-- `npPutAux` leaves any position outside the index list unchanged. -/
theorem npPutAux_getD_not_mem {α : Type} [Inhabited α] (a : List α) (ind : List ℕ)
    (v : List α) (k q : ℕ) (d : α) (hq : q ∉ ind) :
    (npPutAux a ind v k).getD q d = a.getD q d := by
  induction ind generalizing a k with
  | nil => rfl
  | cons p rest ih =>
    have hne : p ≠ q := fun h => hq (h ▸ List.mem_cons_self p rest)
    rw [npPutAux, ih _ _ (fun h => hq (List.mem_cons_of_mem p h))]
    rw [List.getD_eq_getElem?_getD, List.getD_eq_getElem?_getD, List.getElem?_set_ne hne]
    exact (List.getD_eq_getElem?_getD a q d).symm

/-- The remap loop of `ColorFilter` writes only at flat positions 0 and 1
    (numpy casts the boolean index array to the integers 0 and 1), so every
    pixel from flat position 2 on keeps its original k-means label. -/
theorem cfRemap_tail_unchanged (labels : List ℕ) (centers : List Pixel) :
    ∀ m, 2 ≤ m → (cfRemap labels centers).getD m 0 = labels.getD m 0 := by
  intro m hm
  have step : ∀ (acc : List ℕ) (prev : ℕ),
      (npPut acc (labels.map (fun l => if l = prev then 1 else 0))
        [(sorted_centers_args centers).getD prev 0]).getD m 0 = acc.getD m 0 := by
    intro acc prev
    unfold npPut
    rw [if_neg (by simp)]
    apply npPutAux_getD_not_mem
    intro hmem
    obtain ⟨l, _, hval⟩ := List.mem_map.mp hmem
    split_ifs at hval <;> omega
  have main : ∀ (ps : List ℕ) (acc : List ℕ),
      (ps.foldl (fun acc prev =>
        npPut acc (labels.map fun l => if l = prev then 1 else 0)
          [(sorted_centers_args centers).getD prev 0]) acc).getD m 0 = acc.getD m 0 := by
    intro ps
    induction ps with
    | nil => intro acc; rfl
    | cons p rest ih =>
      intro acc
      rw [List.foldl_cons, ih, step]
  exact main (List.range 4) labels

/-- C6 (amended): the descending-norm reordering of the four cluster
    indices is a genuine permutation of {0, 1, 2, 3}, but the per-pixel
    remap never happens: `np.put` interprets the boolean array
    `labels == prev_number` as the index array of 0s and 1s, so only flat
    positions 0 and 1 of the label raster are overwritten and every later
    pixel keeps its original k-means label; no idempotence property of a
    label remapping holds because no remapping takes place. -/
theorem c6_color_filter_reorder (labels : List ℕ) (centers : List Pixel)
    (hc : centers.length = 4) :
    (sorted_centers_args centers).Perm [0, 1, 2, 3] ∧
    ∀ m, 2 ≤ m → (cfRemap labels centers).getD m 0 = labels.getD m 0 := by
  refine ⟨?_, cfRemap_tail_unchanged labels centers⟩
  unfold sorted_centers_args argsortAsc
  have h1 : (centers.map normSq).length = 4 := by simp [hc]
  rw [h1]
  have hperm := List.mergeSort_perm (List.range 4)
    (fun a b => decide ((centers.map normSq).getD a 0 < (centers.map normSq).getD b 0) ||
      (decide ((centers.map normSq).getD a 0 = (centers.map normSq).getD b 0) &&
        decide (a ≤ b)))
  have h2 : List.range 4 = [0, 1, 2, 3] := by decide
  exact h2 ▸ ((List.reverse_perm _).trans hperm)

/-- C6 witness: the amended theorem instantiated on the concrete centroids
    `cexCenters` and the labels 0, 1, 2, 3: position 2 keeps label 2. -/
theorem c6_color_filter_reorder_witness :
    (sorted_centers_args cexCenters).Perm [0, 1, 2, 3] ∧
    (cfRemap [0, 1, 2, 3] cexCenters).getD 2 0 = 2 := by
  have h := c6_color_filter_reorder [0, 1, 2, 3] cexCenters (by decide)
  exact ⟨h.1, (h.2 2 (by decide)).trans (by decide)⟩

unseal List.merge List.mergeSort in
/-- C6 counterexample: with centroids of norms 1 < 2 < 3 < 4 the
    descending order is [3, 2, 1, 0], so the claim's remap would send the
    pixel at flat position 2 (original label 2) to 2's position in that
    order, namely 1; the code instead leaves it at its original label 2,
    because `np.put` treats the boolean mask as the index array {0, 1}. -/
theorem c6_counterexample :
    cfK2d (fun _ _ => ((0 : ℚ), 0, 0) : RGBr 2 2)
        (fun _ => ([0, 1, 2, 3], cexCenters)) 1 0 ≠
      (sorted_centers_args cexCenters).indexOf 2 := by
  with_unfolding_all decide

/-- `make_trimmer`'s three successive maps compose into mapping the single
    row predicate `rowClearFlag`. -/
theorem make_trimmer_eq (img : Img) :
    make_trimmer img = (npArgmax (img.map rowClearFlag),
      2048 - npArgmax (img.map rowClearFlag).reverse) := by
  unfold make_trimmer
  simp only []
  rw [List.map_map, List.map_map]
  rfl

/-- When some entry is `true`, `np.argmax` on booleans is `findIdx`. -/
theorem npArgmax_of_exists (l : List Bool) (hex : ∃ x ∈ l, id x = true) :
    npArgmax l = l.findIdx id := by
  unfold npArgmax
  rw [List.findIdx?_eq_some_iff_findIdx_eq.mpr
    ⟨List.findIdx_lt_length_of_exists hex, rfl⟩]
  rfl

/-- `np.argmax` of an all-`true` array is 0. -/
theorem npArgmax_replicate_true (n : ℕ) (hn : n ≠ 0) :
    npArgmax (List.replicate n true) = 0 := by
  obtain ⟨m, rfl⟩ := Nat.exists_eq_succ_of_ne_zero hn
  unfold npArgmax
  rw [List.replicate_succ, List.findIdx?_cons]
  simp

/-- C7 (amended): the later `V2.treat_image` trims *rows only*: every
    returned row is a whole row of the resized canvas (no column is
    removed); when at least one row is clear — strictly more than 85% of
    its summed-channel pixels exceed 1e-3 — the output is nonempty, its
    first row is a clear row, and every row dropped from the front failed
    the (strict) clearness test. -/
theorem c7_v2_row_trim (resizeO : Img → Img) (img : Img) (ty : String)
    (hlen : (resizeO img).length = 2048)
    (hex : ∃ r ∈ resizeO img, rowClearFlag r = true) :
    (∀ r ∈ v2_treat_image resizeO img ty, r ∈ resizeO img) ∧
    v2_treat_image resizeO img ty ≠ [] ∧
    (∃ r, (v2_treat_image resizeO img ty).head? = some r ∧ rowClearFlag r = true) ∧
    (∀ k, k < (make_trimmer (resizeO img)).1 →
      ∀ r, (resizeO img)[k]? = some r → rowClearFlag r = false) := by
  have hflex : ∃ x ∈ (resizeO img).map rowClearFlag, id x = true := by
    obtain ⟨r, hr, hrf⟩ := hex
    exact ⟨rowClearFlag r, List.mem_map_of_mem _ hr, hrf⟩
  have hflen : ((resizeO img).map rowClearFlag).length = 2048 := by
    rw [List.length_map, hlen]
  have hfd : ((resizeO img).map rowClearFlag).findIdx id <
      ((resizeO img).map rowClearFlag).length :=
    List.findIdx_lt_length_of_exists hflex
  have hf : (make_trimmer (resizeO img)).1 = ((resizeO img).map rowClearFlag).findIdx id := by
    rw [make_trimmer_eq]
    exact npArgmax_of_exists _ hflex
  have hrevex : ∃ x ∈ ((resizeO img).map rowClearFlag).reverse, id x = true := by
    obtain ⟨x, hx, hxx⟩ := hflex
    exact ⟨x, List.mem_reverse.mpr hx, hxx⟩
  have hl2 : (make_trimmer (resizeO img)).2 =
      2048 - ((resizeO img).map rowClearFlag).reverse.findIdx id := by
    rw [make_trimmer_eq]
    show 2048 - npArgmax ((resizeO img).map rowClearFlag).reverse = _
    rw [npArgmax_of_exists _ hrevex]
  have hrevlt : ((resizeO img).map rowClearFlag).reverse.findIdx id < 2048 := by
    have h := List.findIdx_lt_length_of_exists hrevex
    rwa [List.length_reverse, hflen] at h
  have hfle : ((resizeO img).map rowClearFlag).findIdx id ≤
      ((resizeO img).map rowClearFlag).length - 1 -
        ((resizeO img).map rowClearFlag).reverse.findIdx id := by
    by_contra hlt
    push_neg at hlt
    have hfalse := List.not_of_lt_findIdx hlt
    have h1 : ((resizeO img).map rowClearFlag).reverse.findIdx id <
        ((resizeO img).map rowClearFlag).reverse.length := by
      rw [List.length_reverse, hflen]
      exact hrevlt
    have h2 := List.findIdx_getElem (w := h1)
    rw [List.getElem_reverse] at h2
    exact Bool.noConfusion (hfalse.symm.trans h2)
  have hout : v2_treat_image resizeO img ty =
      ((resizeO img).drop (((resizeO img).map rowClearFlag).findIdx id)).take
        ((2048 - ((resizeO img).map rowClearFlag).reverse.findIdx id) -
          ((resizeO img).map rowClearFlag).findIdx id) := by
    show ((resizeO img).drop (make_trimmer (resizeO img)).1).take
      ((make_trimmer (resizeO img)).2 - (make_trimmer (resizeO img)).1) = _
    rw [hf, hl2]
  have hfub : ((resizeO img).map rowClearFlag).findIdx id < 2048 := by
    rw [← hflen]
    exact hfd
  have himgb : ((resizeO img).map rowClearFlag).findIdx id < (resizeO img).length := by
    have h3 := hfd
    rwa [List.length_map] at h3
  refine ⟨?_, ?_, ?_, ?_⟩
  · intro r hr
    rw [hout] at hr
    exact List.Sublist.mem hr ((List.take_sublist _ _).trans (List.drop_sublist _ _))
  · rw [hout]
    apply List.ne_nil_of_length_pos
    rw [List.length_take, List.length_drop, hlen]
    rw [hflen] at hfle
    omega
  · refine ⟨(resizeO img).get ⟨((resizeO img).map rowClearFlag).findIdx id, himgb⟩, ?_, ?_⟩
    · rw [hout, List.head?_eq_getElem?, List.getElem?_take, if_pos (by rw [hflen] at hfle; omega),
        List.getElem?_drop, Nat.add_zero]
      exact List.getElem?_eq_getElem himgb
    · have h2 := List.findIdx_getElem (w := hfd)
      rw [List.getElem_map] at h2
      exact h2
  · intro k hk r hkr
    rw [hf] at hk
    have hb : k < (resizeO img).length := by omega
    have hfalse := List.not_of_lt_findIdx hk
    rw [List.getElem_map] at hfalse
    rw [List.getElem?_eq_getElem hb] at hkr
    have hr2 := Option.some_inj.mp hkr
    rw [← hr2]
    exact hfalse

/-- The counterexample canvas row is clear: 2047 of its 2048 summed-channel
    pixels exceed the threshold and 2047/2048 > 0.85. -/
theorem rowClearFlag_cexRow : rowClearFlag cexRow = true := by
  unfold rowClearFlag cexRow
  rw [List.map_cons, List.map_replicate, List.map_cons, List.map_replicate]
  rw [show decide (sumChannels ((0 : ℚ), 0, 0) > 1 / 1000) = false from by
      with_unfolding_all decide,
    show decide (sumChannels ((1 : ℚ), 1, 1) > 1 / 1000) = true from by
      with_unfolding_all decide]
  rw [List.countP_cons, List.countP_replicate]
  simp only [List.length_cons, List.length_replicate, id]
  with_unfolding_all decide

/-- The counterexample canvas has 2048 rows. -/
theorem cexCanvas_length : cexCanvas.length = 2048 := by
  rw [show cexCanvas = List.replicate 2048 cexRow from rfl, List.length_replicate]

/-- The counterexample row has 2048 pixels. -/
theorem cexRow_length : cexRow.length = 2048 := by
  rw [show cexRow = ((0 : ℚ), (0 : ℚ), (0 : ℚ)) ::
    List.replicate 2047 ((1 : ℚ), (1 : ℚ), (1 : ℚ)) from rfl,
    List.length_cons, List.length_replicate]

/-- C7 witness: the amended theorem instantiated on the concrete canvas
    `cexCanvas` (all of whose rows are clear). -/
theorem c7_v2_row_trim_witness : v2_treat_image cexResize [] "t" ≠ [] := by
  have hlen : (cexResize []).length = 2048 := cexCanvas_length
  have hex : ∃ r ∈ cexResize [], rowClearFlag r = true := by
    refine ⟨cexRow, ?_, rowClearFlag_cexRow⟩
    show cexRow ∈ cexCanvas
    exact List.mem_replicate.mpr ⟨by omega, rfl⟩
  exact (c7_v2_row_trim cexResize [] "t" hlen hex).2.1

/-- On the counterexample canvas every row is clear, so the code's
    row-trimming pass keeps the whole canvas — black column 0 included. -/
theorem c7_code_result : v2_treat_image cexResize [] "t" = cexCanvas := by
  have hflagsCanvas : cexCanvas.map rowClearFlag = List.replicate 2048 true := by
    show (List.replicate 2048 cexRow).map rowClearFlag = _
    rw [List.map_replicate, rowClearFlag_cexRow]
  have hmtCanvas : make_trimmer cexCanvas = (0, 2048) := by
    rw [make_trimmer_eq, hflagsCanvas, List.reverse_replicate,
      npArgmax_replicate_true 2048 (by omega)]
  unfold v2_treat_image
  simp only []
  rw [show cexResize [] = cexCanvas from rfl, hmtCanvas]
  simp only [List.drop_zero, Nat.sub_zero]
  exact List.take_of_length_le (le_of_eq cexCanvas_length)

/-- The canvas row is also clear under the specification's non-strict
    85% reading. -/
theorem rowClearGE_cexRow : rowClearGE cexRow = true := by
  unfold rowClearGE cexRow
  rw [List.map_cons, List.map_replicate, List.countP_cons, List.countP_replicate]
  simp only [List.length_cons, List.length_replicate]
  with_unfolding_all decide

/-- Column 0 of the canvas is entirely black, hence not content under the
    specification's column rule. -/
theorem colClearGE_cexCanvas_zero : colClearGE cexCanvas 0 = false := by
  unfold colClearGE
  rw [show cexCanvas = List.replicate 2048 cexRow from rfl, List.map_replicate]
  rw [show cexRow.getD 0 ((0 : ℚ), 0, 0) = ((0 : ℚ), 0, 0) from rfl]
  rw [List.countP_replicate]
  simp only [List.length_replicate]
  with_unfolding_all decide

/-- Every other column of the canvas is all-white, hence content under the
    specification's column rule. -/
theorem colClearGE_cexCanvas_pos : ∀ j, 1 ≤ j → j < 2048 →
    colClearGE cexCanvas j = true := by
  intro j h1 h2
  obtain ⟨k, rfl⟩ : ∃ k, j = k + 1 := ⟨j - 1, by omega⟩
  unfold colClearGE
  rw [show cexCanvas = List.replicate 2048 cexRow from rfl, List.map_replicate]
  have hget : cexRow.getD (k + 1) ((0 : ℚ), 0, 0) = ((1 : ℚ), 1, 1) := by
    show (((0 : ℚ), (0 : ℚ), (0 : ℚ)) :: List.replicate 2047
      ((1 : ℚ), (1 : ℚ), (1 : ℚ))).getD (k + 1) ((0 : ℚ), 0, 0) = _
    rw [List.getD_cons_succ, List.getD_eq_getElem?_getD, List.getElem?_replicate,
      if_pos (by omega)]
    rfl
  rw [hget, List.countP_replicate]
  simp only [List.length_replicate]
  with_unfolding_all decide

/-- The specification's column flags over the canvas: column 0 fails, all
    others pass. -/
theorem colFlags_cexCanvas : (List.range 2048).map (colClearGE cexCanvas) =
    false :: List.replicate 2047 true := by
  rw [show (2048 : ℕ) = 2047 + 1 from rfl, List.range_succ_eq_map, List.map_cons,
    List.map_map]
  have htail : (List.range 2047).map (colClearGE cexCanvas ∘ Nat.succ) =
      List.replicate 2047 true := by
    apply List.eq_replicate_iff.mpr
    refine ⟨by rw [List.length_map, List.length_range], ?_⟩
    intro b hb
    obtain ⟨k, hk, rfl⟩ := List.mem_map.mp hb
    have hk2 := List.mem_range.mp hk
    show colClearGE cexCanvas (Nat.succ k) = true
    exact colClearGE_cexCanvas_pos (k + 1) (by omega) (by omega)
  rw [colClearGE_cexCanvas_zero, htail]

/-- `np.argmax` of the column flags: the first content column is 1. -/
theorem npArgmax_colFlags : npArgmax (false :: List.replicate 2047 true) = 1 := by
  unfold npArgmax
  rw [List.findIdx?_cons, if_neg (by decide)]
  rw [show List.replicate 2047 true = true :: List.replicate 2046 true from rfl,
    List.findIdx?_cons, if_pos (show id true = true from rfl)]
  rfl

/-- `np.argmax` of the reversed column flags is 0. -/
theorem npArgmax_colFlags_rev :
    npArgmax ((false :: List.replicate 2047 true).reverse) = 0 := by
  rw [List.reverse_cons, List.reverse_replicate,
    show List.replicate 2047 true = true :: List.replicate 2046 true from rfl]
  unfold npArgmax
  rw [List.cons_append, List.findIdx?_cons, if_pos (show id true = true from rfl)]
  rfl

/-- The specification's row-and-column trim over the canvas removes the
    black border column: every output row has only 2047 pixels. -/
theorem c7_claim_result : v2_claim_treat_image cexResize [] "t" =
    List.replicate 2048 (List.replicate 2047 ((1 : ℚ), 1, 1)) := by
  simp only [v2_claim_treat_image]
  rw [show cexResize [] = cexCanvas from rfl]
  have hge : cexCanvas.map rowClearGE = List.replicate 2048 true := by
    rw [show cexCanvas = List.replicate 2048 cexRow from rfl, List.map_replicate,
      rowClearGE_cexRow]
  rw [hge, List.reverse_replicate, npArgmax_replicate_true 2048 (by omega),
    colFlags_cexCanvas, npArgmax_colFlags, npArgmax_colFlags_rev]
  simp only [List.drop_zero, Nat.sub_zero]
  rw [List.take_of_length_le (le_of_eq cexCanvas_length)]
  rw [show cexCanvas = List.replicate 2048 cexRow from rfl, List.map_replicate]
  have hrow2 : (cexRow.drop 1).take (2048 - 1) = List.replicate 2047 ((1 : ℚ), 1, 1) := by
    rw [show cexRow.drop 1 = List.replicate 2047 ((1 : ℚ), 1, 1) from rfl]
    exact List.take_of_length_le (by rw [List.length_replicate])
  exact congrArg (List.replicate 2048) hrow2

set_option maxRecDepth 100000 in
/-- C7 counterexample: on the canvas `cexCanvas` the code keeps all 2048
    columns (its rows still start with the all-black column) while the
    specification's row-and-column trim would return 2047-pixel rows, so
    `V2.treat_image` does not trim the black border columns the claim
    describes. -/
theorem c7_counterexample :
    v2_treat_image cexResize [] "t" ≠ v2_claim_treat_image cexResize [] "t" := by
  rw [c7_code_result, c7_claim_result]
  intro h
  have h0 : (List.replicate 2048 cexRow).head?.map List.length =
      (List.replicate 2048 (List.replicate 2047 ((1 : ℚ), 1, 1))).head?.map List.length := by
    rw [show List.replicate 2048 cexRow = cexCanvas from rfl, h]
    rfl
  rw [List.head?_replicate, List.head?_replicate] at h0
  rw [if_neg (by omega), if_neg (by omega)] at h0
  simp only [Option.map_some'] at h0
  rw [cexRow_length, List.length_replicate] at h0
  exact absurd (Option.some_inj.mp h0) (by omega)

/-- C5 counterexample: `BlackTrimmer` is a concrete strategy class of the
    later revision, but it never overrides `treat_image`, so calling it
    raises `NotImplementedError` instead of returning any sequence —
    so not every concrete strategy's `treat_image` returns a non-empty
    sequence of images. -/
theorem c5_counterexample :
    blackTrimmer_treat_image (List Img) [] "sapin" =
      Except.error "Should be implemented by children classes." := rfl

/-- C5 (amended): every concrete strategy whose `treat_image` builds a
    Python list returns a non-empty one (Identity 1 element, BlackFilter
    and Thresholding 2, ComponentDetection 3, ColorFilter 4, EdgeDetection,
    Entropy, V1 and the earlier V2 revision 6), and `BlackMask` returns its
    two-element pair; but `Grey`, `Equalizer` and `Upsampling` return a
    single transformed raster rather than a sequence, the later `V2`
    returns the trimmed raster itself, and `BlackTrimmer` inherits the
    raising base method. -/
theorem c5_treat_image_outputs :
    (∀ img : Img, (identity_treat_image img).length = 1) ∧
    (∀ img : Img, (blackFilter_treat_image img).length = 2) ∧
    (∀ img : Img, (blackMask_treat_image img).1 = img) ∧
    (∀ (n : ℕ) (img : RGBr n n) (pcaO : List Pixel → List ℚ) (sobelO : Gr n n → Gr n n),
      (componentDetection_treat_image img pcaO sobelO).length = 3) ∧
    (∀ (n : ℕ) (img : RGBr n n) (pcaO : List Pixel → List ℚ) (sobelO : Gr n n → Gr n n)
        (taO : Gr n n → MaskB n n),
      (thresholding_treat_image img pcaO sobelO taO).length = 2) ∧
    (∀ (n : ℕ) (img : RGBr n n) (pcaO : List Pixel → List ℚ)
        (sobelO laplaceO prewittO scharrO robertsO : Gr n n → Gr n n),
      (edgeDetection_treat_image img pcaO sobelO laplaceO prewittO scharrO robertsO).length
        = 6) ∧
    (∀ (n : ℕ) (img : RGBr n n) (kmO : List Pixel → List ℕ × List Pixel),
      (colorFilter_treat_image img kmO).length = 4) ∧
    (∀ (h w : ℕ) (img : RGBr h w) (entropyO : Gr h w → ℕ → Gr h w),
      (entropy_treat_image img entropyO).length = 6) ∧
    (∀ (n : ℕ) (img : RGBr n n) (pcaO : List Pixel → List ℚ)
        (kmO : List Pixel → List ℕ × List Pixel) (sobelO : Gr n n → Gr n n),
      (v1_treat_image img pcaO kmO sobelO).length = 6) ∧
    (∀ (img : RGBr 4096 4096) (equalizeO : RGBr 4096 4096 → RGBr 4096 4096)
        (sobelO : Gr 256 256 → Gr 256 256) (resizeO : Gr 256 256 → Gr 4096 4096),
      (v2rev0_treat_image img equalizeO sobelO resizeO).length = 6) ∧
    (∀ img : Img, grey_treat_image img = greyImg img) ∧
    (∀ (equalizeO : Img → Img) (img : Img),
      equalizer_treat_image equalizeO img = greyImg (equalizeO img)) ∧
    (∀ (rescaleO : Img → Img) (img : Img),
      upsampling_treat_image rescaleO img = rescaleO img) ∧
    (∀ (β : Type) (img : Img) (ty : String),
      blackTrimmer_treat_image β img ty =
        Except.error "Should be implemented by children classes.") := by
  refine ⟨fun _ => rfl, fun _ => rfl, fun _ => rfl, fun _ _ _ _ => rfl,
    fun _ _ _ _ _ => rfl, fun _ _ _ _ _ _ _ _ => rfl, fun _ _ _ => rfl,
    fun _ _ _ _ => rfl, fun _ _ _ _ _ => ?_, fun _ _ _ _ => rfl,
    fun _ => rfl, fun _ _ => rfl, fun _ _ => rfl, fun _ _ _ => rfl⟩
  rfl
